import Mathlib

/-!
Verification of the agent-profiler orchestration engine against its
natural-language specification.

The definitions below are a shallow embedding of the Python code shown in
the repository's architecture documents (the `_is_safe_query`,
`_execute_query`, `_correct_query` and transparency-event snippets, and the
`stream_events` SSE loop).  Components whose implementation is not present
in the repository sources (the orchestrator's plan validation and execution
loop, and the validate/correct control flow around a single query) are
modelled from the specification and marked as such in their doc comments.
Python strings are modelled as `List Char`.
-/

namespace AgentProfiler

/-- The fixed list of mutating SQL keywords scanned for by
`_is_safe_query` (the `dangerous` list in the source). -/
def dangerousKeywords : List String :=
  ["DROP", "DELETE", "INSERT", "UPDATE", "ALTER", "TRUNCATE", "CREATE", "GRANT", "REVOKE"]

/-- The character sequence `f" {d} "` that `_is_safe_query` searches for as
a substring: the keyword with a single space on each side. -/
def spacedForm (d : String) : List Char :=
  ' ' :: (d.toList ++ [' '])

/-- Python `str.upper`: uppercase each character. -/
def pyUpper (s : List Char) : List Char := s.map Char.toUpper

/-- Python `str.strip`: remove leading and trailing whitespace. -/
def pyStrip (s : List Char) : List Char :=
  ((s.dropWhile Char.isWhitespace).reverse.dropWhile Char.isWhitespace).reverse

/-- Embedding of `_is_safe_query` from the source:

```python
def _is_safe_query(self, sql: str) -> bool:
    if not sql:
        return False
    sql_upper = sql.upper().strip()
    dangerous = ["DROP", "DELETE", "INSERT", "UPDATE", "ALTER", "TRUNCATE",
                 "CREATE", "GRANT", "REVOKE"]
    return not any(sql_upper.startswith(d) or f" {d} " in sql_upper
                   for d in dangerous)
```

`not sql` is true exactly on the empty string, `str.upper` uppercases each
character, `str.strip` removes surrounding whitespace, `startswith` is a
plain prefix test and `in` is substring containment. -/
def is_safe_query (sql : List Char) : Bool :=
  if sql = [] then false
  else
    let u : List Char := pyStrip (pyUpper sql)
    !(dangerousKeywords.any fun d =>
        d.toList.isPrefixOf u || decide (spacedForm d <:+: u))

/-- A character that can occur inside an SQL word token. -/
def isWordChar (c : Char) : Bool := c.isAlphanum || c = '_'

/-- Split a character sequence into maximal runs of word characters. -/
def wordRuns : List Char → List Char → List (List Char)
  | [], acc => [acc.reverse]
  | c :: cs, acc =>
      if isWordChar c then wordRuns cs (c :: acc)
      else acc.reverse :: wordRuns cs []

/-- The word tokens of a query, uppercased. Used to state the
specification's token-boundary matching requirement. -/
def queryTokens (sql : List Char) : List (List Char) :=
  (wordRuns (pyUpper sql) []).filter (fun t => ¬ t = [])

/-- The rejection predicate exactly as the specification words it: the
query contains one of the mutating keywords as a standalone whole token,
case-insensitively, at any position.  (Stated from the spec's words for
comparison with `is_safe_query`, which is taken from the source.) -/
def specTokenReject (sql : List Char) : Bool :=
  (queryTokens sql).any (fun t => dangerousKeywords.any (fun d => d.toList = t))

example : is_safe_query "SELECT * FROM clients".toList = true := by decide
example : is_safe_query "DROP TABLE clients".toList = false := by decide
example : is_safe_query "SELECT 1; DROP TABLE t".toList = false := by decide
example : is_safe_query "SELECT 1;DROP TABLE T".toList = true := by decide
example : specTokenReject "SELECT 1;DROP TABLE T".toList = true := by decide
example : is_safe_query "SELECT created_at FROM t".toList = true := by decide
example : specTokenReject "SELECT created_at FROM t".toList = false := by decide
example : is_safe_query "".toList = false := by decide
example : is_safe_query "DROPLET FROM t".toList = false := by decide
example : specTokenReject "DROPLET FROM t".toList = false := by decide

/-- C1 counterexample: the statement `SELECT 1;DROP TABLE T` contains
`DROP` as a standalone whole token (adjacent to the punctuation `;`), so
the claim says it must be rejected; `_is_safe_query` nevertheless accepts
it, because the keyword is neither a prefix of the statement nor
surrounded by spaces on both sides. -/
theorem C1_counterexample :
    specTokenReject "SELECT 1;DROP TABLE T".toList = true ∧
    is_safe_query "SELECT 1;DROP TABLE T".toList = true := by
  constructor <;> decide

/-- C1 (amended): `_is_safe_query` rejects a query if and only if the
query is empty, or its uppercased and whitespace-stripped text starts with
one of the mutating keywords (a plain string prefix, even mid-word, e.g.
`DROPLET ...`), or contains one of the keywords with a space character on
both sides.  A keyword adjacent to punctuation or at the very end of the
statement is therefore not detected. -/
theorem C1_is_safe_query_characterization (sql : List Char) :
    is_safe_query sql = false ↔
      sql = [] ∨ ∃ d ∈ dangerousKeywords,
        (d.toList <+: pyStrip (pyUpper sql) ∨
         spacedForm d <:+: pyStrip (pyUpper sql)) := by
  unfold is_safe_query
  by_cases h : sql = []
  · simp [h]
  · simp [h, List.any_eq_true, List.isPrefixOf_iff_prefix]

/-- C10: the empty query string (the only falsy `str` value in Python) is
classified unsafe by `_is_safe_query`: it returns `False`, so an empty
statement is never executed. -/
theorem C10_empty_query_rejected : is_safe_query "".toList = false := by decide

/-! ## `_execute_query` (claims C3 and C9) -/

/-- Python values as they can appear in a fetched row: date-like objects
(carrying the string their `isoformat()` returns), raw bytes, strings,
numbers and NULL. -/
inductive PyValue
  | date (iso : List Char)
  | bytes (bs : List Nat)
  | str (s : List Char)
  | int (i : Int)
  | null
deriving DecidableEq

/-- Python `bytes.decode('utf-8', errors='replace')`, modelled as a
per-byte character decoding (exact for the ASCII bytes SQL data uses;
`Char.ofNat` substitutes a default character where the code point is
invalid, matching `errors='replace'` never raising). -/
def decodeUtf8 (bs : List Nat) : List Char := bs.map Char.ofNat

/-- The JSON-serialization conversion loop of `_execute_query`:

```python
if hasattr(value, 'isoformat'):
    row[key] = value.isoformat()
elif isinstance(value, (bytes,)):
    row[key] = value.decode('utf-8', errors='replace')
```
-/
def convertValue : PyValue → PyValue
  | .date iso => .str iso
  | .bytes bs => .str (decodeUtf8 bs)
  | v => v

/-- A value on which the serialization conversion has already been
performed: no date-like object and no raw bytes remain. -/
def isConverted : PyValue → Bool
  | .date _ => false
  | .bytes _ => false
  | _ => true

/-- A fetched row: column name / value pairs (`dict(zip(columns, row))`). -/
abbrev Row : Type := List (List Char × PyValue)

/-- Modelled from the spec: the database connection obtained from
`engine.connect()` in `_execute_query`.  The engine configuration
(`app.database`) is not part of the repository sources; per the spec the
connection "cannot commit writes", so running a statement is a function of
the committed store that yields either rows together with an uncommitted
successor store, or an error message, and closing the connection without a
commit discards the uncommitted store. -/
structure Connection (σ : Type) where
  runStatement : List Char → σ → Except (List Char) (List Row × σ)

/-- The dictionary `_execute_query` returns: either
`{"data": ..., "row_count": ...}` or `{"error": ...}`. -/
inductive QueryResultDict
  | success (data : List Row) (row_count : Nat)
  | error (msg : List Char)

/-- Embedding of `_execute_query` from the source: open a connection on
the committed store, execute the statement, fetch all rows, convert
date-like and bytes values for JSON serialization, and return the data
dictionary with `row_count = len(data)`; any raised exception is caught
and returned as an error dictionary.  The connection is closed without a
commit, so the committed store (second component) is returned unchanged. -/
def execute_query {σ : Type} (conn : Connection σ) (store : σ)
    (sql : List Char) : QueryResultDict × σ :=
  match conn.runStatement sql store with
  | .ok (rows, _uncommitted) =>
      let data := rows.map (fun r => r.map (fun kv => (kv.1, convertValue kv.2)))
      (.success data data.length, store)
  | .error e => (.error e, store)

/-- C3: `_execute_query` runs under a connection that cannot commit
writes: the committed store is unchanged by execution — even when the
statement's semantics would mutate the uncommitted store — and replaying
the same query text against the resulting store yields the same result. -/
theorem C3_execute_no_side_effects {σ : Type} (conn : Connection σ)
    (store : σ) (sql : List Char) :
    (execute_query conn store sql).2 = store ∧
    (execute_query conn (execute_query conn store sql).2 sql).1
      = (execute_query conn store sql).1 := by
  unfold execute_query
  rcases h : conn.runStatement sql store with v | e <;> simp [h]

/-- C9: `_execute_query` is total with respect to exceptions: it always
returns a dictionary.  When the statement succeeds, the dictionary carries
the data together with `row_count` equal to the number of returned rows,
and every date-like value has been replaced by its `isoformat` string and
every bytes value decoded to a string; when the statement raises, the
dictionary carries the raised error message, and no exception propagates
to the caller. -/
theorem C9_execute_query_total {σ : Type} (conn : Connection σ)
    (store : σ) (sql : List Char) :
    (∃ data rc, (execute_query conn store sql).1 = .success data rc ∧
       rc = data.length ∧
       ∀ row ∈ data, ∀ kv ∈ row, isConverted kv.2 = true) ∨
    (∃ e, conn.runStatement sql store = .error e ∧
       (execute_query conn store sql).1 = .error e) := by
  unfold execute_query
  cases h : conn.runStatement sql store with
  | ok v =>
      left
      refine ⟨_, _, rfl, rfl, ?_⟩
      intro row hrow kv hkv
      simp only [List.mem_map] at hrow
      obtain ⟨r, _, rfl⟩ := hrow
      simp only [List.mem_map] at hkv
      obtain ⟨kv0, _, rfl⟩ := hkv
      cases kv0.2 <;> rfl
  | error e => right; exact ⟨e, rfl, rfl⟩

/-! ## Query engine: validate → execute → self-correct (claims C2 and C7) -/

/-- Outcome of running one planned query through the engine.  `α` is the
type of the row set returned on success. -/
inductive QueryOutcome (α : Type)
  | completed (rows : α)
  | failed (err : List Char)
  | rejected (reason : List Char)
deriving DecidableEq

/-- Modelled from the spec: the engine's correction loop for one planned
query (§4.4 retry policy).  Only `_correct_query` — the single LLM call —
is in the repository sources; the loop that bounds how often it is invoked
is modelled from the spec: on `ExecutionError` call `correct` at most
`fuel` more times; a corrected query must pass validation and execution,
and when attempts are exhausted (or a corrected query fails validation, or
the corrector returns nothing) the step fails reporting the ORIGINAL
error.  Returns the outcome together with the number of `execute` calls
and the number of `correct` calls made inside the loop. -/
def correctionLoop {α : Type} (validate : List Char → Bool)
    (execute : List Char → Except (List Char) α)
    (correct : List Char → List Char → Option (List Char))
    (origErr : List Char) :
    Nat → List Char → List Char → QueryOutcome α × Nat × Nat
  | 0, _, _ => (.failed origErr, 0, 0)
  | fuel + 1, q, e =>
      match correct q e with
      | none => (.failed origErr, 0, 1)
      | some q2 =>
          if validate q2 then
            match execute q2 with
            | .ok rows => (.completed rows, 1, 1)
            | .error e2 =>
                let r := correctionLoop validate execute correct origErr fuel q2 e2
                (r.1, r.2.1 + 1, r.2.2 + 1)
          else (.failed origErr, 0, 1)

/-- Modelled from the spec: running one planned query through the engine
(§4.4): validate first — a rejected query is terminal for that attempt,
reported as "unsafe operation rejected", and is never passed to the
corrector — then execute; an `ExecutionError` triggers the correction
loop with the configured bound `maxCorrections`.  Returns the outcome
together with the total number of `execute` calls and `correct` calls. -/
def runQuery {α : Type} (maxCorrections : Nat) (validate : List Char → Bool)
    (execute : List Char → Except (List Char) α)
    (correct : List Char → List Char → Option (List Char))
    (q : List Char) : QueryOutcome α × Nat × Nat :=
  if validate q then
    match execute q with
    | .ok rows => (.completed rows, 1, 0)
    | .error e =>
        let r := correctionLoop validate execute correct e maxCorrections q e
        (r.1, r.2.1 + 1, r.2.2)
  else (.rejected "unsafe operation rejected".toList, 0, 0)

/-- The configured correction bound `N` defaults to 1. -/
def defaultMaxCorrections : Nat := 1

/-- The correction loop never calls the corrector more than `fuel` times. -/
theorem correctionLoop_correct_calls_le {α : Type}
    (validate : List Char → Bool) (execute : List Char → Except (List Char) α)
    (correct : List Char → List Char → Option (List Char))
    (origErr : List Char) :
    ∀ fuel q e,
      (correctionLoop validate execute correct origErr fuel q e).2.2 ≤ fuel := by
  intro fuel
  induction fuel with
  | zero => intro q e; simp [correctionLoop]
  | succ n ih =>
      intro q e
      unfold correctionLoop
      cases correct q e with
      | none => simp
      | some q2 =>
          by_cases hv : validate q2
          · simp only [hv, if_true]
            cases execute q2 with
            | ok rows => simp
            | error e2 => simpa using ih q2 e2
          · simp [hv]

/-- On an always-failing `execute` (with a corrector that always proposes
a query passing validation), the correction loop performs exactly `fuel`
further executions and `fuel` corrections, and fails with the original
error. -/
theorem correctionLoop_always_failing {α : Type}
    (validate : List Char → Bool) (execute : List Char → Except (List Char) α)
    (correct : List Char → List Char → Option (List Char))
    (origErr : List Char)
    (err : List Char → List Char) (corr : List Char → List Char → List Char)
    (hexec : ∀ q, execute q = .error (err q))
    (hcorr : ∀ q e, correct q e = some (corr q e))
    (hval : ∀ q, validate q = true) :
    ∀ fuel q e,
      correctionLoop validate execute correct origErr fuel q e
        = (.failed origErr, fuel, fuel) := by
  intro fuel
  induction fuel with
  | zero => intro q e; simp [correctionLoop]
  | succ n ih =>
      intro q e
      unfold correctionLoop
      rw [hcorr q e]
      simp only [hval, if_true, hexec]
      rw [ih]

/-- C2: correction attempts for one planned query are bounded by the
configured `N` (whose default is 1): the corrector is called at most `N`
times whatever the validator, executor and corrector do; and with an
always-failing `execute` (and a corrector always proposing a query that
passes validation) exactly `N + 1` executions occur — the original plus
`N` corrections — after which the step fails reporting the original
error. -/
theorem C2_correction_bound {α : Type} (N : Nat)
    (validate : List Char → Bool) (execute : List Char → Except (List Char) α)
    (correct : List Char → List Char → Option (List Char))
    (q : List Char)
    (err : List Char → List Char) (corr : List Char → List Char → List Char)
    (hexec : ∀ q', execute q' = .error (err q'))
    (hcorr : ∀ q' e, correct q' e = some (corr q' e))
    (hval : ∀ q', validate q' = true) :
    defaultMaxCorrections = 1 ∧
    (∀ (v : List Char → Bool) (ex : List Char → Except (List Char) α)
       (c : List Char → List Char → Option (List Char)) (q' : List Char),
        (runQuery N v ex c q').2.2 ≤ N) ∧
    runQuery N validate execute correct q
      = (.failed (err q), N + 1, N) := by
  refine ⟨rfl, ?_, ?_⟩
  · intro v ex c q'
    unfold runQuery
    by_cases hv : v q'
    · simp only [hv, if_true]
      cases ex q' with
      | ok rows => simp
      | error e => simpa using correctionLoop_correct_calls_le v ex c e N q' e
    · simp [hv]
  · unfold runQuery
    simp only [hval, if_true, hexec]
    rw [correctionLoop_always_failing validate execute correct (err q) err corr
      hexec hcorr hval]

/-- C2 witness: with `N = 1`, a validator accepting everything, an
executor that always fails with "boom" and a corrector that always echoes
the query back, running `SELECT 1` makes exactly 2 execution attempts and
1 correction and fails with the original error. -/
theorem C2_correction_bound_witness :
    runQuery (α := List Nat) 1 (fun _ => true)
        (fun _ => .error "boom".toList) (fun q _ => some q)
        "SELECT 1".toList
      = (.failed "boom".toList, 2, 1) :=
  (C2_correction_bound 1 (fun _ => true) (fun _ => .error "boom".toList)
    (fun q _ => some q) "SELECT 1".toList (fun _ => "boom".toList)
    (fun q _ => q) (fun _ => rfl) (fun _ _ => rfl) (fun _ => rfl)).2.2

/-- C7: a query rejected by the validator is a terminal `Error` for that
attempt: the engine reports "unsafe operation rejected", performs no
execution, and never invokes the corrector (zero `correct` calls). -/
theorem C7_rejection_terminal {α : Type} (N : Nat)
    (execute : List Char → Except (List Char) α)
    (correct : List Char → List Char → Option (List Char))
    (q : List Char) (h : is_safe_query q = false) :
    runQuery N is_safe_query execute correct q
      = (.rejected "unsafe operation rejected".toList, 0, 0) := by
  unfold runQuery
  simp [h]

/-- C7 witness: `DROP TABLE clients` is rejected by `_is_safe_query`, and
running it through the engine yields the terminal rejection with zero
executions and zero corrector invocations. -/
theorem C7_rejection_terminal_witness :
    runQuery (α := List Nat) 1 is_safe_query
        (fun _ => .error "boom".toList) (fun q _ => some q)
        "DROP TABLE clients".toList
      = (.rejected "unsafe operation rejected".toList, 0, 0) :=
  C7_rejection_terminal 1 (fun _ => .error "boom".toList) (fun q _ => some q)
    "DROP TABLE clients".toList (by decide)

/-! ## Transparency events (claim C4) -/

/-- The `EventType` enumeration used by the agents' `emit` helper. -/
inductive EventType
  | received
  | thinking
  | decision
  | action
  | result
  | error
deriving DecidableEq

/-- One emitted transparency event: its kind and its `step_number`. -/
structure EmittedEvent where
  kind : EventType
  step_number : Nat
deriving DecidableEq

/-- The standard event flow every agent emits, with its hard-coded step
numbers, from the source:

```python
await emit(EventType.RECEIVED, "Received request", {...}, 1)
await emit(EventType.THINKING, "Loading data context", {}, 2)
await emit(EventType.THINKING, "Analyzing and planning", {}, 3)
await emit(EventType.ACTION, "Executing queries", {...}, 4)
await emit(EventType.THINKING, "Synthesizing insights", {}, 5)
await emit(EventType.RESULT, "Analysis complete", {...}, 6)
```
-/
def standardEventFlow : List EmittedEvent :=
  [⟨.received, 1⟩, ⟨.thinking, 2⟩, ⟨.thinking, 3⟩,
   ⟨.action, 4⟩, ⟨.thinking, 5⟩, ⟨.result, 6⟩]

/-- The error event the source emits when an agent fails:
`await emit(EventType.ERROR, f"Failed: {error}", {...}, 99)` — the
step number is the fixed literal 99. -/
def errorEventStep : Nat := 99

/-- The events one capability emits within a session: on success the full
standard flow; if the agent fails after the first `k` standard events, the
emitted prefix followed by the error event with step number 99. -/
def agentEvents : Option Nat → List EmittedEvent
  | none => standardEventFlow
  | some k => standardEventFlow.take k ++ [⟨.error, errorEventStep⟩]

/-- The sequence of `step_number` values of a list of events. -/
def stepNumbers (es : List EmittedEvent) : List Nat :=
  es.map (·.step_number)

/-- A sequence of step numbers is strictly increasing. -/
def strictlyIncreasingSteps : List Nat → Bool
  | a :: b :: rest => a < b && strictlyIncreasingSteps (b :: rest)
  | _ => true

/-- A sequence of step numbers has no gaps: each entry is the successor of
the one before it. -/
def noGapSteps : List Nat → Bool
  | a :: b :: rest => (b == a + 1) && noGapSteps (b :: rest)
  | _ => true

/-- C4 counterexample: an agent that fails after emitting its first two
standard events emits the step numbers 1, 2, 99 — the error event carries
the fixed step number 99, so the capability's sequence has a gap,
contradicting the claim that the sequence is strictly increasing with no
gaps including the error path. -/
theorem C4_counterexample :
    (strictlyIncreasingSteps (stepNumbers (agentEvents (some 2))) &&
      noGapSteps (stepNumbers (agentEvents (some 2)))) = false := by decide

/-- C4 (amended): whatever point the agent fails at, the step numbers it
emits are strictly increasing (the error step 99 exceeds every standard
step); the success path additionally has no gaps (consecutive step
numbers 1 through 6).  Gaps do occur on the error path, where the error
event is emitted with the fixed step number 99. -/
theorem C4_step_numbers (failPoint : Option Nat) :
    strictlyIncreasingSteps (stepNumbers (agentEvents failPoint)) = true ∧
    noGapSteps (stepNumbers (agentEvents none)) = true := by
  refine ⟨?_, by decide⟩
  cases failPoint with
  | none => decide
  | some k =>
      rcases k with _ | _ | _ | _ | _ | _ | n
      · decide
      · decide
      · decide
      · decide
      · decide
      · decide
      · have h : standardEventFlow.take (n + 6) = standardEventFlow := by
          apply List.take_of_length_le
          simp [standardEventFlow]
        simp only [agentEvents, h]
        decide

/-! ## Orchestrator: plan validation and step execution (claims C5 and C6)

The orchestrator implementation (`orchestrator.py`) is not among the
repository sources — only its contract is described — so the definitions
in this section are modelled from the specification (§4.2, §7). -/

/-- One step of an execution plan, as produced by the planning LLM call. -/
structure PlanStep where
  capability_name : List Char
  instruction : List Char
  depends_on : Option Nat
deriving DecidableEq

/-- How a plan step settled. -/
inductive StepStatus
  | completed
  | failed
  | skipped
deriving DecidableEq

/-- The orchestrator events these claims talk about: the single `Error`
event surfacing a `PlanValidationError`, and the `Error` event emitted
when a step's executor returns `Failed`. -/
inductive OrchEvent
  | planErrorEvent
  | stepErrorEvent (i : Nat)
deriving DecidableEq

/-- Modelled from the spec: every `capability_name` in the plan exists in
the catalog (§4.2 step 3). -/
def planNamesOk (catalog : List (List Char)) (plan : List PlanStep) : Bool :=
  plan.all (fun s => catalog.contains s.capability_name)

/-- Modelled from the spec: the plan is acyclic — no step depends on
itself or a later step (§4.2 step 3). -/
def planAcyclic (plan : List PlanStep) : Bool :=
  plan.enum.all (fun p =>
    match p.2.depends_on with
    | none => true
    | some j => decide (j < p.1))

/-- Modelled from the spec: plan validation. -/
def validatePlan (catalog : List (List Char)) (plan : List PlanStep) : Bool :=
  planNamesOk catalog plan && planAcyclic plan

/-- A step's dependency is satisfied given the statuses of the steps
settled before it: either it has none, or the step it depends on
completed. -/
def depSatisfied (settled : List StepStatus) (s : PlanStep) : Bool :=
  match s.depends_on with
  | none => true
  | some j => settled.get? j == some .completed

/-- Modelled from the spec: sequential execution of the plan steps (§4.2
steps 4-5).  Steps are processed in plan order; a step whose dependency
did not complete is marked `Skipped` and its executor is not invoked; a
step whose executor returns `Failed` produces an `Error` event and the
plan continues.  `executor i s = true` means step `i` returned
`Completed`.  Returns (statuses, invoked step indices, events). -/
def runStepsAux (executor : Nat → PlanStep → Bool) :
    Nat → List PlanStep → List StepStatus →
    List StepStatus × List Nat × List OrchEvent
  | _, [], settled => (settled, [], [])
  | i, s :: rest, settled =>
      if depSatisfied settled s then
        if executor i s then
          let r := runStepsAux executor (i + 1) rest (settled ++ [.completed])
          (r.1, i :: r.2.1, r.2.2)
        else
          let r := runStepsAux executor (i + 1) rest (settled ++ [.failed])
          (r.1, i :: r.2.1, .stepErrorEvent i :: r.2.2)
      else
        runStepsAux executor (i + 1) rest (settled ++ [.skipped])

/-- Execution of a whole plan, starting with nothing settled. -/
def runSteps (executor : Nat → PlanStep → Bool) (plan : List PlanStep) :
    List StepStatus × List Nat × List OrchEvent :=
  runStepsAux executor 0 plan []

/-- The request-level outcome of `handle`. -/
inductive OrchOutcome
  | answer
  | planValidationError
deriving DecidableEq

/-- Modelled from the spec: the orchestrator's handling of one plan —
validate it against the catalog; on failure the request fails with
`PlanValidationError`, surfaced as a single `Error` event and a
user-visible failure message, with no step invoked; otherwise execute the
steps. -/
def handlePlan (catalog : List (List Char)) (executor : Nat → PlanStep → Bool)
    (plan : List PlanStep) :
    OrchOutcome × List StepStatus × List Nat × List OrchEvent :=
  if validatePlan catalog plan then
    let r := runSteps executor plan
    (.answer, r.1, r.2.1, r.2.2)
  else
    (.planValidationError, [], [], [.planErrorEvent])

/-- C5: if any `capability_name` of the plan is not in the registry
catalog, the orchestrator fails with `PlanValidationError` before any
step runs: the outcome is the fatal request-level error, exactly one
`Error` event is emitted, no step is ever invoked and no step settles. -/
theorem C5_plan_validation (catalog : List (List Char))
    (executor : Nat → PlanStep → Bool) (plan : List PlanStep)
    (h : ∃ s ∈ plan, catalog.contains s.capability_name = false) :
    handlePlan catalog executor plan
      = (.planValidationError, [], [], [.planErrorEvent]) := by
  have hnames : planNamesOk catalog plan = false := by
    obtain ⟨s, hs, hc⟩ := h
    unfold planNamesOk
    rw [List.all_eq_false]
    exact ⟨s, hs, by simpa using hc⟩
  unfold handlePlan validatePlan
  rw [hnames]
  simp

/-- C5 witness: a plan whose only step names the unregistered capability
`nonexistent` against a catalog holding only `sql_analytics`. -/
theorem C5_plan_validation_witness :
    handlePlan ["sql_analytics".toList] (fun _ _ => true)
        [⟨"nonexistent".toList, "task".toList, none⟩]
      = (.planValidationError, [], [], [.planErrorEvent]) :=
  C5_plan_validation ["sql_analytics".toList] (fun _ _ => true)
    [⟨"nonexistent".toList, "task".toList, none⟩]
    ⟨⟨"nonexistent".toList, "task".toList, none⟩, by decide, by decide⟩

/-- The element sitting right after a known prefix of an append. -/
theorem getElem?_append_length {α : Type} (l₁ l₂ : List α) (a : α) :
    (l₁ ++ a :: l₂)[l₁.length]? = some a := by
  rw [List.getElem?_append_right (Nat.le_refl _)]
  simp

/-- Reduction of `runStepsAux` when the head step's dependency is
satisfied and its executor completes. -/
theorem runStepsAux_cons_completed (ex : Nat → PlanStep → Bool)
    (i : Nat) (s : PlanStep) (rest : List PlanStep)
    (settled : List StepStatus)
    (h1 : depSatisfied settled s = true) (h2 : ex i s = true) :
    runStepsAux ex i (s :: rest) settled =
      ((runStepsAux ex (i + 1) rest (settled ++ [.completed])).1,
       i :: (runStepsAux ex (i + 1) rest (settled ++ [.completed])).2.1,
       (runStepsAux ex (i + 1) rest (settled ++ [.completed])).2.2) := by
  simp [runStepsAux, h1, h2]

/-- Reduction of `runStepsAux` when the head step's dependency is
satisfied and its executor fails. -/
theorem runStepsAux_cons_failed (ex : Nat → PlanStep → Bool)
    (i : Nat) (s : PlanStep) (rest : List PlanStep)
    (settled : List StepStatus)
    (h1 : depSatisfied settled s = true) (h2 : ex i s = false) :
    runStepsAux ex i (s :: rest) settled =
      ((runStepsAux ex (i + 1) rest (settled ++ [.failed])).1,
       i :: (runStepsAux ex (i + 1) rest (settled ++ [.failed])).2.1,
       OrchEvent.stepErrorEvent i
         :: (runStepsAux ex (i + 1) rest (settled ++ [.failed])).2.2) := by
  simp [runStepsAux, h1, h2]

/-- Reduction of `runStepsAux` when the head step's dependency did not
complete: the step is marked skipped and the executor is not consulted. -/
theorem runStepsAux_cons_skipped (ex : Nat → PlanStep → Bool)
    (i : Nat) (s : PlanStep) (rest : List PlanStep)
    (settled : List StepStatus)
    (h1 : depSatisfied settled s = false) :
    runStepsAux ex i (s :: rest) settled
      = runStepsAux ex (i + 1) rest (settled ++ [.skipped]) := by
  simp [runStepsAux, h1]

/-- `runStepsAux` only appends to the settled statuses: the result is the
settled prefix followed by one status per remaining step. -/
theorem runStepsAux_statuses (ex : Nat → PlanStep → Bool) :
    ∀ (rest : List PlanStep) (i : Nat) (settled : List StepStatus),
      ∃ tail, (runStepsAux ex i rest settled).1 = settled ++ tail ∧
        tail.length = rest.length := by
  intro rest
  induction rest with
  | nil => intro i settled; exact ⟨[], by simp [runStepsAux]⟩
  | cons s rest ih =>
      intro i settled
      cases hdep : depSatisfied settled s with
      | true =>
          cases hex : ex i s with
          | true =>
              rw [runStepsAux_cons_completed ex i s rest settled hdep hex]
              obtain ⟨t, ht, hl⟩ := ih (i + 1) (settled ++ [.completed])
              refine ⟨.completed :: t, ?_, by simp [hl]⟩
              rw [ht, List.append_assoc, List.singleton_append]
          | false =>
              rw [runStepsAux_cons_failed ex i s rest settled hdep hex]
              obtain ⟨t, ht, hl⟩ := ih (i + 1) (settled ++ [.failed])
              refine ⟨.failed :: t, ?_, by simp [hl]⟩
              rw [ht, List.append_assoc, List.singleton_append]
      | false =>
          rw [runStepsAux_cons_skipped ex i s rest settled hdep]
          obtain ⟨t, ht, hl⟩ := ih (i + 1) (settled ++ [.skipped])
          refine ⟨.skipped :: t, ?_, by simp [hl]⟩
          rw [ht, List.append_assoc, List.singleton_append]

/-- Step indices invoked by `runStepsAux` are at least the starting
index. -/
theorem runStepsAux_invoked_ge (ex : Nat → PlanStep → Bool) :
    ∀ (rest : List PlanStep) (i : Nat) (settled : List StepStatus) (j : Nat),
      j ∈ (runStepsAux ex i rest settled).2.1 → i ≤ j := by
  intro rest
  induction rest with
  | nil => intro i settled j hj; simp [runStepsAux] at hj
  | cons s rest ih =>
      intro i settled j hj
      cases hdep : depSatisfied settled s with
      | true =>
          cases hex : ex i s with
          | true =>
              rw [runStepsAux_cons_completed ex i s rest settled hdep hex] at hj
              rcases List.mem_cons.mp hj with h | h
              · omega
              · have := ih (i + 1) (settled ++ [.completed]) j h; omega
          | false =>
              rw [runStepsAux_cons_failed ex i s rest settled hdep hex] at hj
              rcases List.mem_cons.mp hj with h | h
              · omega
              · have := ih (i + 1) (settled ++ [.failed]) j h; omega
      | false =>
          rw [runStepsAux_cons_skipped ex i s rest settled hdep] at hj
          have := ih (i + 1) (settled ++ [.skipped]) j hj; omega

/-- Per-step characterization of `runStepsAux`: given the statuses settled
before step `k` of the remaining steps, the step is skipped and never
invoked when its dependency did not complete, and is invoked — settling
as its executor decides, with an `Error` event on failure — when its
dependency is satisfied. -/
theorem runStepsAux_spec (ex : Nat → PlanStep → Bool) :
    ∀ (rest : List PlanStep) (i : Nat) (settled : List StepStatus)
      (k : Nat) (hk : k < rest.length),
      (depSatisfied ((runStepsAux ex i rest settled).1.take (settled.length + k))
          rest[k] = false →
         (runStepsAux ex i rest settled).1[settled.length + k]? = some .skipped ∧
         (i + k) ∉ (runStepsAux ex i rest settled).2.1) ∧
      (depSatisfied ((runStepsAux ex i rest settled).1.take (settled.length + k))
          rest[k] = true →
         (i + k) ∈ (runStepsAux ex i rest settled).2.1 ∧
         (ex (i + k) rest[k] = true →
            (runStepsAux ex i rest settled).1[settled.length + k]? = some .completed) ∧
         (ex (i + k) rest[k] = false →
            (runStepsAux ex i rest settled).1[settled.length + k]? = some .failed ∧
            OrchEvent.stepErrorEvent (i + k) ∈ (runStepsAux ex i rest settled).2.2)) := by
  intro rest
  induction rest with
  | nil => intro i settled k hk; exact absurd hk (by simp)
  | cons s rest ih =>
      intro i settled k hk
      cases k with
      | zero =>
          simp only [Nat.add_zero, List.getElem_cons_zero]
          cases hdep : depSatisfied settled s with
          | true =>
              cases hex : ex i s with
              | true =>
                  rw [runStepsAux_cons_completed ex i s rest settled hdep hex]
                  obtain ⟨t, ht, _⟩ :=
                    runStepsAux_statuses ex rest (i + 1) (settled ++ [.completed])
                  rw [List.append_assoc, List.singleton_append] at ht
                  constructor
                  · intro hfalse
                    rw [ht, List.take_left, hdep] at hfalse
                    exact absurd hfalse (by simp)
                  · intro _
                    refine ⟨by simp, ?_, ?_⟩
                    · intro _
                      rw [ht, getElem?_append_length]
                    · intro hexf
                      exact absurd hexf (by simp)
              | false =>
                  rw [runStepsAux_cons_failed ex i s rest settled hdep hex]
                  obtain ⟨t, ht, _⟩ :=
                    runStepsAux_statuses ex rest (i + 1) (settled ++ [.failed])
                  rw [List.append_assoc, List.singleton_append] at ht
                  constructor
                  · intro hfalse
                    rw [ht, List.take_left, hdep] at hfalse
                    exact absurd hfalse (by simp)
                  · intro _
                    refine ⟨by simp, ?_, ?_⟩
                    · intro hext
                      exact absurd hext (by simp)
                    · intro _
                      exact ⟨by rw [ht, getElem?_append_length], by simp⟩
          | false =>
              rw [runStepsAux_cons_skipped ex i s rest settled hdep]
              obtain ⟨t, ht, _⟩ :=
                runStepsAux_statuses ex rest (i + 1) (settled ++ [.skipped])
              rw [List.append_assoc, List.singleton_append] at ht
              constructor
              · intro _
                refine ⟨by rw [ht, getElem?_append_length], ?_⟩
                intro hmem
                have := runStepsAux_invoked_ge ex rest (i + 1)
                  (settled ++ [.skipped]) i hmem
                omega
              · intro htrue
                rw [ht, List.take_left, hdep] at htrue
                exact absurd htrue (by simp)
      | succ k' =>
          have hk' : k' < rest.length := by
            simpa [Nat.succ_lt_succ_iff] using hk
          simp only [List.getElem_cons_succ]
          cases hdep : depSatisfied settled s with
          | true =>
              cases hex : ex i s with
              | true =>
                  rw [runStepsAux_cons_completed ex i s rest settled hdep hex]
                  have harith : settled.length + (k' + 1)
                      = (settled ++ [StepStatus.completed]).length + k' := by
                    simp; omega
                  have harith2 : i + (k' + 1) = i + 1 + k' := by omega
                  rw [harith, harith2]
                  have spec := ih (i + 1) (settled ++ [.completed]) k' hk'
                  constructor
                  · intro hfalse
                    have h1 := spec.1 hfalse
                    refine ⟨h1.1, ?_⟩
                    intro hmem
                    rcases List.mem_cons.mp hmem with h | h
                    · omega
                    · exact h1.2 h
                  · intro htrue
                    have h2 := spec.2 htrue
                    exact ⟨List.mem_cons.mpr (Or.inr h2.1), h2.2.1, h2.2.2⟩
              | false =>
                  rw [runStepsAux_cons_failed ex i s rest settled hdep hex]
                  have harith : settled.length + (k' + 1)
                      = (settled ++ [StepStatus.failed]).length + k' := by
                    simp; omega
                  have harith2 : i + (k' + 1) = i + 1 + k' := by omega
                  rw [harith, harith2]
                  have spec := ih (i + 1) (settled ++ [.failed]) k' hk'
                  constructor
                  · intro hfalse
                    have h1 := spec.1 hfalse
                    refine ⟨h1.1, ?_⟩
                    intro hmem
                    rcases List.mem_cons.mp hmem with h | h
                    · omega
                    · exact h1.2 h
                  · intro htrue
                    have h2 := spec.2 htrue
                    refine ⟨List.mem_cons.mpr (Or.inr h2.1), h2.2.1, ?_⟩
                    intro hexf
                    have h3 := h2.2.2 hexf
                    exact ⟨h3.1, List.mem_cons.mpr (Or.inr h3.2)⟩
          | false =>
              rw [runStepsAux_cons_skipped ex i s rest settled hdep]
              have harith : settled.length + (k' + 1)
                  = (settled ++ [StepStatus.skipped]).length + k' := by
                simp; omega
              have harith2 : i + (k' + 1) = i + 1 + k' := by omega
              rw [harith, harith2]
              exact ih (i + 1) (settled ++ [.skipped]) k' hk'

/-- C6: during plan execution, when a step's executor returns `Failed`
the orchestrator emits an `Error` event and continues the plan — every
step still settles (the status list covers the whole plan) and every step
whose dependency is satisfied is still invoked — while every step whose
dependency did not complete is marked `Skipped` and its executor is never
invoked. -/
theorem C6_failure_isolation (ex : Nat → PlanStep → Bool)
    (plan : List PlanStep) (k : Nat) (hk : k < plan.length) :
    (runSteps ex plan).1.length = plan.length ∧
    (depSatisfied ((runSteps ex plan).1.take k) plan[k] = false →
       (runSteps ex plan).1[k]? = some .skipped ∧
       k ∉ (runSteps ex plan).2.1) ∧
    (depSatisfied ((runSteps ex plan).1.take k) plan[k] = true →
       k ∈ (runSteps ex plan).2.1 ∧
       (ex k plan[k] = false →
          (runSteps ex plan).1[k]? = some .failed ∧
          OrchEvent.stepErrorEvent k ∈ (runSteps ex plan).2.2) ∧
       (ex k plan[k] = true →
          (runSteps ex plan).1[k]? = some .completed)) := by
  have hlen : (runSteps ex plan).1.length = plan.length := by
    obtain ⟨t, ht, hl⟩ := runStepsAux_statuses ex plan 0 []
    unfold runSteps
    rw [ht]
    simp [hl]
  have spec := runStepsAux_spec ex plan 0 [] k hk
  simp only [List.length_nil, Nat.zero_add] at spec
  unfold runSteps
  exact ⟨hlen, fun h => spec.1 h,
    fun h => ⟨(spec.2 h).1, fun hf => (spec.2 h).2.2 hf,
      fun ht2 => (spec.2 h).2.1 ht2⟩⟩

/-- C6 witness: in a three-step plan where step 0 fails, step 1 depends
on step 0 and step 2 is independent, step 1 is skipped and never invoked
(applying the theorem at `k = 1`). -/
theorem C6_failure_isolation_witness :
    (runSteps (fun i _ => decide (0 < i))
        [⟨"sql_analytics".toList, "t1".toList, none⟩,
         ⟨"segmentation".toList, "t2".toList, some 0⟩,
         ⟨"pattern_recognition".toList, "t3".toList, none⟩]).1[1]?
      = some .skipped ∧
    1 ∉ (runSteps (fun i _ => decide (0 < i))
        [⟨"sql_analytics".toList, "t1".toList, none⟩,
         ⟨"segmentation".toList, "t2".toList, some 0⟩,
         ⟨"pattern_recognition".toList, "t3".toList, none⟩]).2.1 :=
  (C6_failure_isolation (fun i _ => decide (0 < i))
    [⟨"sql_analytics".toList, "t1".toList, none⟩,
     ⟨"segmentation".toList, "t2".toList, some 0⟩,
     ⟨"pattern_recognition".toList, "t3".toList, none⟩]
    1 (by decide)).2.1 (by decide)

/-! ## Event stream termination (claim C8) -/

/-- Embedding of the `stream_events` SSE generator loop from
`PHASE-E-PLAN.md`:

```python
while True:
    new_events = await get_new_events(db, conversation_id, seen_events)
    for event in new_events:
        yield event_as_sse_frame
    if is_workflow_complete(new_events):
        yield terminal_complete_marker
        break
    await asyncio.sleep(0.3)
```

`complete n` says whether `is_workflow_complete` holds at poll iteration
`n`; the loop is observed for `fuel` iterations starting at iteration
`start`, returning the iteration at which it yielded the terminal
complete marker and broke, if that happened within the observed window. -/
def stream_events_loop (complete : Nat → Bool) : Nat → Nat → Option Nat
  | 0, _ => none
  | fuel + 1, n => if complete n then some n else stream_events_loop complete fuel (n + 1)

/-- Observing the `stream_events` loop from its start. -/
def stream_events (complete : Nat → Bool) (fuel : Nat) : Option Nat :=
  stream_events_loop complete fuel 0

/-- A subscriber stream that never terminates: however long it is
observed, the loop has not yielded a terminal marker. -/
def streamNeverTerminates (complete : Nat → Bool) : Prop :=
  ∀ fuel, stream_events complete fuel = none

/-- The loop never breaks when the completion condition never holds. -/
theorem stream_events_loop_const_false :
    ∀ fuel n, stream_events_loop (fun _ => false) fuel n = none := by
  intro fuel
  induction fuel with
  | zero => intro n; rfl
  | succ m ih => intro n; simpa [stream_events_loop] using ih (n + 1)

/-- C8 counterexample: on a session where the workflow-complete condition
never becomes true (an inactive session), the `stream_events` loop never
terminates — there is no inactivity timeout and no `Timeout` terminal
marker in the code, contradicting the claim that every subscriber stream
terminates. -/
theorem C8_counterexample : streamNeverTerminates (fun _ => false) :=
  fun fuel => stream_events_loop_const_false fuel 0

/-- Characterization of the loop from an arbitrary start iteration: it
breaks exactly at the first iteration in the observed window where the
completion condition holds. -/
theorem stream_events_loop_eq_some (complete : Nat → Bool) :
    ∀ (fuel start n : Nat),
      stream_events_loop complete fuel start = some n ↔
        (start ≤ n ∧ n < start + fuel ∧ complete n = true ∧
         ∀ k, start ≤ k → k < n → complete k = false) := by
  intro fuel
  induction fuel with
  | zero =>
      intro start n
      constructor
      · intro h
        exact absurd h (by simp [stream_events_loop])
      · rintro ⟨h1, h2, -, -⟩
        omega
  | succ m ih =>
      intro start n
      simp only [stream_events_loop]
      cases hc : complete start with
      | true =>
          simp only [if_true]
          constructor
          · intro h
            have hn : n = start := (Option.some.inj h).symm
            subst hn
            exact ⟨Nat.le_refl _, by omega, hc, fun k hk1 hk2 => by omega⟩
          · rintro ⟨h1, h2, hcn, hall⟩
            rcases Nat.lt_or_ge start n with hlt | hge
            · exact absurd hc (by rw [hall start (Nat.le_refl _) hlt]; simp)
            · have : n = start := by omega
              rw [this]
      | false =>
          simp only [Bool.false_eq_true, if_false]
          rw [ih (start + 1) n]
          constructor
          · rintro ⟨h1, h2, hcn, hall⟩
            refine ⟨by omega, by omega, hcn, ?_⟩
            intro k hk1 hk2
            rcases Nat.lt_or_ge k (start + 1) with hlt | hge
            · have : k = start := by omega
              rw [this, hc]
            · exact hall k hge hk2
          · rintro ⟨h1, h2, hcn, hall⟩
            have hne : n ≠ start := by
              intro h
              rw [h] at hcn
              exact absurd hcn (by rw [hc]; simp)
            refine ⟨by omega, by omega, hcn, ?_⟩
            intro k hk1 hk2
            exact hall k (by omega) hk2

/-- C8 (amended): a subscriber stream yields its terminal complete marker
at iteration `n` exactly when the workflow-complete condition first holds
at iteration `n` within the observed window.  In particular the stream
ends when the session's final event arrives, and — there being no
inactivity-timeout path — it does not terminate on a session where that
condition never holds. -/
theorem C8_stream_termination (complete : Nat → Bool) (fuel n : Nat) :
    stream_events complete fuel = some n ↔
      (n < fuel ∧ complete n = true ∧ ∀ k, k < n → complete k = false) := by
  unfold stream_events
  rw [stream_events_loop_eq_some complete fuel 0 n]
  constructor
  · rintro ⟨-, h2, h3, h4⟩
    exact ⟨by omega, h3, fun k hk => h4 k (Nat.zero_le _) hk⟩
  · rintro ⟨h2, h3, h4⟩
    exact ⟨Nat.zero_le _, by omega, h3, fun k _ hk => h4 k hk⟩

end AgentProfiler
